import Mathlib

/-!
Shallow embedding of the `swpatterns` library (files `swpatterns/interface.py`,
`swpatterns/composition.py`, `swpatterns/matching.py`) and proofs about it.

Modelling conventions:
* Python runtime types are modelled as `Nat` tags.  The model's types have no
  user-defined subclassing, so `isinstance(v, t)` amounts to identity of the
  type tags.
* Annotation expressions (the objects stored in `inspect.Parameter.annotation`
  and `Signature.return_annotation`) are modelled as `Nat` atoms; `none` models
  the sentinel `inspect.Parameter.empty` / `Signature.empty`.  On these atoms
  Python's `is` and `==` coincide, which is how the library uses them.
* `vars(cls)` is modelled as an association list `List (String × Member)`.
* Raising an exception is modelled with `Option`/`Except`: a `none` /
  `.error e` result stands for the raise.  `_perform_check` raises in verbose
  mode exactly on the inputs where it returns `False` in non-verbose mode
  (every `return False` in its body sits directly under an
  `if verbose: raise ...`), so a single `Bool`-valued embedding covers both
  modes: `false` means "returns False / raises".
-/

namespace SwPatterns

/-- Parameter kinds, as in `inspect.Parameter.kind`. -/
inductive ParamKind where
  | positionalOnly
  | positionalOrKeyword
  | varPositional
  | keywordOnly
  | varKeyword
deriving DecidableEq

/-- An annotation atom (the object a parameter or return slot is annotated with). -/
abbrev Annot := Nat

/-- A runtime type tag (`type(value)`). -/
abbrev TypeTag := Nat

/-- One parameter of an `inspect.Signature`: its kind and its optional
annotation (`none` models `inspect.Parameter.empty`). -/
structure Param where
  kind : ParamKind
  annot : Option Annot
deriving DecidableEq

/-- An `inspect.Signature`: the ordered parameters and the optional return
annotation (`none` models `Signature.empty`). -/
structure PySig where
  params : List Param
  ret : Option Annot
deriving DecidableEq

/-- A value found in a class dict (`vars(cls)[key]`):
* `pytype` is the tag of `type(value)`;
* `callable` says whether `callable(value)` holds, and `sig` is
  `inspect.signature(value)` (meaningful only when `callable = true`);
* `dictEntries` are the items of the value when it is a dict (meaningful only
  for dict values; used by the `__annotate__` branch of `_perform_check`). -/
structure Member where
  pytype : TypeTag
  callable : Bool
  sig : PySig
  dictEntries : List (String × Annot)
deriving DecidableEq

/-- `NONE_RELEVANT_VARS = ("__module__", "__doc__")` from `interface.py`. -/
def NONE_RELEVANT_VARS : List String := ["__module__", "__doc__"]

/-- The dict comprehension `{k: v for k, v in vars(x).items() if k not in NONE_RELEVANT_VARS}`
used for both `checklist` and `targets` in `_perform_check`. -/
def relevantVars (vs : List (String × Member)) : List (String × Member) :=
  vs.filter (fun kv => !(NONE_RELEVANT_VARS.contains kv.1))

/-- Dict lookup `targets[key]` (`none` models `key not in targets`). -/
def dictFind (key : String) (vs : List (String × Member)) : Option Member :=
  (vs.find? (fun kv => kv.1 == key)).map Prod.snd

/-- The per-parameter body of the `for i, (param, impl_param) in enumerate(zip(...))`
loop in `_perform_check`: the kinds must be identical, and unless `skip_types`,
a declared (non-empty) annotation of the interface parameter must be identical
to the implementation parameter's annotation. -/
def paramOk (skip : Bool) (p ip : Param) : Bool :=
  p.kind == ip.kind && (skip || p.annot.isNone || ip.annot == p.annot)

/-- The `callable(value)` branch of `_perform_check`, comparing
`inspect.signature(value)` with `inspect.signature(impl_value)`:
equal parameter counts; unless `skip_types`, a declared return annotation must
equal the implementation's; then the per-parameter loop.  `false` models the
`TypeError` raised (and caught, turning into `return False` when not verbose). -/
def sigOk (skip : Bool) (sig isig : PySig) : Bool :=
  sig.params.length == isig.params.length &&
  (skip || sig.ret.isNone || sig.ret == isig.ret) &&
  (sig.params.zip isig.params).all (fun pq => paramOk skip pq.1 pq.2)

/-- The `key == "__annotate__" and not skip_types` branch of `_perform_check`.
Every iteration of its `for attr_key, attr_type in value.items()` loop ends in
a failure: the `try` block either raises `TypeError` (caught, then re-raised or
`return False`) or falls through to the unconditional
`if verbose: raise KeyError(...)` / `return False` that follows it inside the
loop body.  Hence the branch succeeds exactly when the declared dict is empty. -/
def annotateLoop : List (String × Annot) → Bool
  | [] => true
  | _ :: _ => false

/-- The body of the `for key, value in checklist.items()` loop of
`_perform_check`, given the member found under `key` in `targets`:
first `isinstance(impl_value, type(value))` unless `skip_types` (type-tag
identity in this model), then the `__annotate__` branch, then the callable
branch; any other member passes. -/
def memberOk (skip : Bool) (key : String) (v iv : Member) : Bool :=
  if !(skip || iv.pytype == v.pytype) then false
  else if key == "__annotate__" && !skip then annotateLoop v.dictEntries
  else if v.callable then sigOk skip v.sig iv.sig
  else true

/-- `_perform_check(impl, interface, skip_types, verbose)` from `interface.py`,
as the `Bool` it returns in non-verbose mode (`false` also marks the inputs on
which the verbose mode raises).  An empty checklist returns `True`. -/
def perform_check (implVars ifaceVars : List (String × Member)) (skip : Bool) : Bool :=
  (relevantVars ifaceVars).all (fun kv =>
    match dictFind kv.1 (relevantVars implVars) with
    | none => false
    | some iv => memberOk skip kv.1 kv.2 iv)

/-- An interface: its identity (the class object) and its class dict.  In the
model every `Iface` is a strict subclass of `Interface`. -/
structure Iface where
  id : Nat
  body : List (String × Member)
deriving DecidableEq

/-- A candidate implementation class: its class dict and its `__interfaces__`
attribute (`none` models the attribute being absent).  The model keeps
`__interfaces__` outside `body`; this is faithful as long as no interface
declares a member literally named `__interfaces__`. -/
structure PyClass where
  body : List (String × Member)
  ifaces : Option (List Nat)
deriving DecidableEq

/-- The `__interfaces__` tuple of a class, as `getattr(cls, INTERFACE_LIST_NAME, tuple())`
reads it. -/
def interfacesOf (cls : PyClass) : List Nat :=
  cls.ifaces.getD []

/-- `InterfaceMeta.__implementationcheck__(cls, impl, fuzzy=..., skip_types=...)`:
registered membership when `impl` has `__interfaces__`, a structural check when
`fuzzy`, otherwise `False`. -/
def implementationcheck (iface : Iface) (impl : PyClass) (fuzzy skip : Bool) : Bool :=
  match impl.ifaces with
  | some l => l.contains iface.id
  | none => if fuzzy then perform_check impl.body iface.body skip else false

/-- `isimplementation(impl, interface)` for a single interface target (the
tuple form is the disjunction of this over the tuple's members); the defaults
`fuzzy=False, skip_types=False` apply. -/
def isimplementation (impl : PyClass) (iface : Iface) : Bool :=
  implementationcheck iface impl false false

/-- The decorator `implements(interface, skip_types=...)` applied to a class:
it runs `_perform_check` in verbose mode (`none` models the raised
`KeyError`/`TypeError`), then prepends the interface to `__interfaces__`
unless it is already recorded, and returns the (mutated) class itself. -/
def implements (iface : Iface) (skip : Bool) (cls : PyClass) : Option PyClass :=
  if perform_check cls.body iface.body skip then
    let original := interfacesOf cls
    some { cls with
           ifaces := some (if original.contains iface.id then original
                           else iface.id :: original) }
  else none

/-- Unfolding of the per-parameter check at `skip_types = False`. -/
lemma paramOk_false_iff (p ip : Param) :
    paramOk false p ip = true ↔
      (p.kind = ip.kind ∧ ∀ a, p.annot = some a → ip.annot = some a) := by
  unfold paramOk
  cases hp : p.annot with
  | none => simp [hp]
  | some a =>
    simp only [hp, Option.isNone_some, Bool.false_or, Bool.and_eq_true, beq_iff_eq]
    constructor
    · rintro ⟨hk, hv⟩
      exact ⟨hk, fun b hb => by cases hb; exact hv⟩
    · rintro ⟨hk, hv⟩
      exact ⟨hk, hv a rfl⟩

/-- Unfolding of the return-annotation check at `skip_types = False`. -/
lemma retOk_false_iff (r ir : Option Annot) :
    (r.isNone || r == ir) = true ↔ (∀ a, r = some a → ir = some a) := by
  cases hr : r with
  | none => simp
  | some a =>
    simp only [Option.isNone_some, Bool.false_or, beq_iff_eq]
    constructor
    · rintro h1 b hb
      cases hb; exact h1.symm
    · rintro h1
      exact (h1 a rfl).symm

/-- C2: with `skip_types = False` the callable-member check accepts a pair of
signatures exactly when the parameter counts agree, positionally corresponding
parameters have identical kinds, every declared interface parameter annotation
is identical to the implementation's, and a declared interface return
annotation equals the implementation's. -/
theorem C2_callable_accept (sig isig : PySig) :
    sigOk false sig isig = true ↔
      (sig.params.length = isig.params.length ∧
       List.Forall₂ (fun p ip => p.kind = ip.kind ∧
           ∀ a, p.annot = some a → ip.annot = some a) sig.params isig.params ∧
       (∀ a, sig.ret = some a → isig.ret = some a)) := by
  unfold sigOk
  simp only [Bool.false_or, Bool.and_eq_true, beq_iff_eq, List.all_eq_true,
    retOk_false_iff, List.forall₂_iff_zip]
  constructor
  · rintro ⟨⟨hlen, hr⟩, hall⟩
    refine ⟨hlen, ⟨hlen, ?_⟩, hr⟩
    intro p ip hmem
    exact (paramOk_false_iff p ip).mp (hall _ hmem)
  · rintro ⟨hlen, ⟨_, hzip⟩, hr⟩
    refine ⟨⟨hlen, hr⟩, ?_⟩
    intro pq hmem
    obtain ⟨p, ip⟩ := pq
    exact (paramOk_false_iff p ip).mpr (hzip hmem)

/-- C3: with `skip_types = True` the check of a callable member accepts exactly
when the parameter counts agree and positionally corresponding parameters have
identical kinds; the member-type comparison and all annotation comparisons are
disabled. -/
theorem C3_skip_types (key : String) (v iv : Member) (hc : v.callable = true) :
    memberOk true key v iv = true ↔
      (v.sig.params.length = iv.sig.params.length ∧
       List.Forall₂ (fun p ip => p.kind = ip.kind) v.sig.params iv.sig.params) := by
  have hm : memberOk true key v iv = sigOk true v.sig iv.sig := by
    unfold memberOk
    cases h : (key == "__annotate__") <;> simp [h, hc]
  rw [hm]
  unfold sigOk paramOk
  simp only [Bool.true_or, Bool.and_true, Bool.and_eq_true, beq_iff_eq,
    List.all_eq_true, List.forall₂_iff_zip]
  constructor
  · rintro ⟨hlen, hall⟩
    refine ⟨hlen, hlen, ?_⟩
    intro p ip hmem
    exact hall _ hmem
  · rintro ⟨hlen, _, hzip⟩
    refine ⟨hlen, ?_⟩
    intro pq hmem
    obtain ⟨p, ip⟩ := pq
    exact hzip hmem

/-- Concrete member used by witnesses: a callable taking `(self, target)`. -/
def wMember : Member :=
  ⟨0, true, ⟨[⟨ParamKind.positionalOrKeyword, none⟩, ⟨ParamKind.positionalOrKeyword, none⟩], none⟩, []⟩

/-- Witness for C3 at a concrete callable member. -/
theorem C3_skip_types_w : memberOk true "check" wMember wMember = true :=
  (C3_skip_types "check" wMember wMember rfl).mpr
    ⟨rfl, List.Forall₂.cons rfl (List.Forall₂.cons rfl List.Forall₂.nil)⟩

/-- The conformance check exactly as claim C1 words it: every declared
(relevant) member of the interface must be present in the implementation,
have a matching type (unless `skip_types`), and, when callable, a matching
signature. -/
def claimConform (implVars ifaceVars : List (String × Member)) (skip : Bool) : Bool :=
  (relevantVars ifaceVars).all (fun kv =>
    match dictFind kv.1 (relevantVars implVars) with
    | none => false
    | some iv =>
      (skip || iv.pytype == kv.2.pytype) &&
      (!kv.2.callable || sigOk skip kv.2.sig iv.sig))

/-- The amended conformance check: as `claimConform`, except that when
`skip_types` is false a member declared under the name `__annotate__` must
carry an empty dict, because the annotation-checking loop of `_perform_check`
rejects every declared entry. -/
def claimConformAmended (implVars ifaceVars : List (String × Member)) (skip : Bool) : Bool :=
  (relevantVars ifaceVars).all (fun kv =>
    match dictFind kv.1 (relevantVars implVars) with
    | none => false
    | some iv =>
      (skip || iv.pytype == kv.2.pytype) &&
      (if kv.1 == "__annotate__" && !skip then kv.2.dictEntries.isEmpty
       else !kv.2.callable || sigOk skip kv.2.sig iv.sig))

/-- The member-wise body of `_perform_check` in conjunctive form. -/
lemma memberOk_eq (skip : Bool) (key : String) (v iv : Member) :
    memberOk skip key v iv =
      ((skip || iv.pytype == v.pytype) &&
       (if key == "__annotate__" && !skip then v.dictEntries.isEmpty
        else !v.callable || sigOk skip v.sig iv.sig)) := by
  unfold memberOk
  cases h1 : (skip || iv.pytype == v.pytype) <;>
    cases h2 : (key == "__annotate__" && !skip) <;>
      cases h3 : v.callable <;>
        cases h4 : v.dictEntries <;>
          simp [h1, h2, h3, h4, annotateLoop]

/-- `_perform_check` computes exactly the amended conformance check. -/
lemma perform_check_eq_amended (implVars ifaceVars : List (String × Member)) (skip : Bool) :
    perform_check implVars ifaceVars skip = claimConformAmended implVars ifaceVars skip := by
  unfold perform_check claimConformAmended
  congr 1
  funext kv
  cases dictFind kv.1 (relevantVars implVars) with
  | none => rfl
  | some iv => exact memberOk_eq skip kv.1 kv.2 iv

/-- Interface for the C1 counterexample: it declares exactly one member,
a dict stored under the name `__annotate__` with the single item `x ↦ 0`. -/
def annIface : Iface := ⟨7, [("__annotate__", ⟨3, false, ⟨[], none⟩, [("x", 0)]⟩)]⟩

/-- Implementation class for the C1 counterexample: its class dict holds an
identical `__annotate__` member (same name, same type tag, same items). -/
def annImpl : PyClass := ⟨[("__annotate__", ⟨3, false, ⟨[], none⟩, [("x", 0)]⟩)], none⟩

/-- C1 counterexample: `annImpl` passes the conformance check exactly as claim
C1 words it (no declared member is missing, mistyped, or a callable with a
mismatched signature), yet `implements` raises (modelled as `none`): the
`__annotate__` loop of `_perform_check` ends every iteration in a raise, so a
declared non-empty dict always fails. -/
theorem C1_cex :
    claimConform annImpl.body annIface.body false = true ∧
    implements annIface false annImpl = none := by decide

/-- C1 (amended): `implements(I)` applied to `C` raises exactly when `C` fails
the amended conformance check — a declared member missing, its type differing,
a callable member's signature mismatching, or (with `skip_types` false) a
member declared under the name `__annotate__` carrying a non-empty dict.  When
it does not raise it returns `C` itself (the class dict is unchanged) with `I`
recorded in `__interfaces__`, so `isimplementation C I` holds afterwards. -/
theorem C1_implements (iface : Iface) (skip : Bool) (cls : PyClass) :
    (implements iface skip cls = none ↔
      claimConformAmended cls.body iface.body skip = false) ∧
    (∀ cls', implements iface skip cls = some cls' →
      cls'.body = cls.body ∧ isimplementation cls' iface = true) := by
  constructor
  · rw [← perform_check_eq_amended]
    unfold implements
    cases h : perform_check cls.body iface.body skip <;> simp [h]
  · intro cls' h
    unfold implements at h
    cases hpc : perform_check cls.body iface.body skip with
    | false => rw [hpc] at h; simp at h
    | true =>
      rw [hpc] at h
      simp only [if_true, Option.some.injEq] at h
      subst h
      refine ⟨rfl, ?_⟩
      unfold isimplementation implementationcheck
      cases hc : (interfacesOf cls).contains iface.id with
      | true => simp [hc]; exact List.elem_iff.mp hc
      | false =>
        simp only [hc, if_false]
        exact List.elem_iff.mpr (List.mem_cons_self _ _)

/-- Interface used by witnesses: one callable member named `check`. -/
def wIface : Iface := ⟨1, [("check", wMember)]⟩

/-- A second witness interface, distinct from `wIface`. -/
def wIface2 : Iface := ⟨2, [("check", wMember)]⟩

/-- Witness class: conforms to `wIface` and is not yet registered. -/
def wCls : PyClass := ⟨[("check", wMember)], none⟩

/-- The witness class after registration against `wIface`. -/
def wClsReg : PyClass := ⟨[("check", wMember)], some [1]⟩

/-- Witness for C1 at a concrete registration that succeeds. -/
theorem C1_implements_w :
    wClsReg.body = wCls.body ∧ isimplementation wClsReg wIface = true :=
  (C1_implements wIface false wCls).2 wClsReg (by decide)

/-- C9: registration is idempotent.  If registering conforming `cls` against
interface `i` produced `cls1`, then registering `cls1` against `i` again
returns `cls1` with `__interfaces__` unchanged, `i` occurs in it exactly once
(given that the starting class did not already list `i` more than once), and
registering a different, conforming, not-yet-listed interface `j` prepends `j`
without disturbing the existing entries. -/
theorem C9_idempotent (i j : Iface) (skip skip2 : Bool) (cls cls1 : PyClass)
    (h1 : implements i skip cls = some cls1)
    (hcount : (interfacesOf cls).count i.id ≤ 1)
    (hne : j.id ≠ i.id)
    (hnew : j.id ∉ interfacesOf cls)
    (hconf : perform_check cls1.body j.body skip2 = true) :
    implements i skip cls1 = some cls1 ∧
    (interfacesOf cls1).count i.id = 1 ∧
    (∃ cls2, implements j skip2 cls1 = some cls2 ∧
      interfacesOf cls2 = j.id :: interfacesOf cls1) := by
  unfold implements at h1
  cases hpc : perform_check cls.body i.body skip with
  | false => rw [hpc] at h1; simp at h1
  | true =>
    rw [hpc] at h1
    simp only [if_true, Option.some.injEq] at h1
    have hbody : cls1.body = cls.body := by rw [← h1]
    have hifs : interfacesOf cls1 =
        (if (interfacesOf cls).contains i.id then interfacesOf cls
         else i.id :: interfacesOf cls) := by
      rw [← h1]; simp [interfacesOf]
    have hmem1 : i.id ∈ interfacesOf cls1 := by
      rw [hifs]
      cases hc : (interfacesOf cls).contains i.id with
      | true => simpa using List.elem_iff.mp hc
      | false => simp
    have hcont1 : (interfacesOf cls1).contains i.id = true := List.elem_iff.mpr hmem1
    refine ⟨?_, ?_, ?_⟩
    · unfold implements
      rw [hbody, hpc]
      simp only [if_true, hcont1, Option.some.injEq]
      cases cls1 with
      | mk b ifs =>
        cases ifs with
        | none => simp [interfacesOf] at hmem1
        | some l =>
          simp only [interfacesOf, Option.getD_some]
          have hb : cls.body = b := congrArg PyClass.body h1
          rw [hb]
    · rw [hifs]
      cases hc : (interfacesOf cls).contains i.id with
      | true =>
        simp only [if_true]
        have hm : i.id ∈ interfacesOf cls := List.elem_iff.mp hc
        exact Nat.le_antisymm hcount (List.one_le_count_iff.mpr hm)
      | false =>
        simp only [Bool.false_eq_true, if_false]
        have hm : i.id ∉ interfacesOf cls := by simpa using hc
        rw [List.count_cons_self, List.count_eq_zero.mpr hm]
    · have hjmem : j.id ∉ interfacesOf cls1 := by
        rw [hifs]
        cases hc : (interfacesOf cls).contains i.id with
        | true => simpa using hnew
        | false =>
          simp only [Bool.false_eq_true, if_false, List.mem_cons]
          rintro (h | h)
          · exact hne h
          · exact hnew h
      refine ⟨{ cls1 with ifaces := some (j.id :: interfacesOf cls1) }, ?_, ?_⟩
      · have hcj : ¬((interfacesOf cls1).contains j.id = true) :=
          fun hcc => hjmem (List.elem_iff.mp hcc)
        unfold implements
        rw [hconf]
        simp only [if_true]
        rw [if_neg hcj]
      · simp [interfacesOf]

/-- Witness for C9 at concrete interfaces and classes. -/
theorem C9_idempotent_w :
    implements wIface false wClsReg = some wClsReg ∧
    (interfacesOf wClsReg).count wIface.id = 1 ∧
    (∃ cls2, implements wIface2 false wClsReg = some cls2 ∧
      interfacesOf cls2 = wIface2.id :: interfacesOf wClsReg) :=
  C9_idempotent wIface wIface2 false false wCls wClsReg (by decide) (by decide)
    (by decide) (by decide) (by decide)

/-- Exception kinds raised by the embedded code. -/
inductive PyErr where
  | typeError
  | valueError
deriving DecidableEq

/-- A match-branch instance from `matching.py`: its class (carrying the
`__interfaces__` attribute that `isimplementation` consults — instances
delegate the attribute to their class) together with its `check` and `apply`
methods.  `check` returning `none` models Python `None`; `some r` models the
tuple of captured values (possibly empty) passed on to `apply`. -/
structure Branch (α : Type) where
  cls : PyClass
  check : α → Option (List α)
  apply : List α → α

/-- The `for i, branch in enumerate(branches)` loop of `match`: the first
branch whose `check` is not `None` has `apply` called on the check result;
falling off the end returns `None`. -/
def matchLoop {α : Type} (t : α) : List (Branch α) → Option α
  | [] => none
  | b :: rest =>
    match b.check t with
    | some r => some (b.apply r)
    | none => matchLoop t rest

/-- `match(target, *branches)` from `matching.py`: first the guard
`all(isimplementation(branch, _IMatchBranch) for branch in branches)` (a
failure raises `TypeError` before any `check` runs), then the branch loop.
The result `.ok none` models the `None` returned when no branch matches. -/
def matchEval {α : Type} (iface : Iface) (t : α) (bs : List (Branch α)) :
    Except PyErr (Option α) :=
  if bs.all (fun b => isimplementation b.cls iface) then
    .ok (matchLoop t bs)
  else .error .typeError

/-- The branch loop returns the first hit. -/
lemma matchLoop_of_first {α : Type} (t : α) (bs : List (Branch α)) (i : Nat)
    (h : i < bs.length) (r : List α)
    (hhit : bs[i].check t = some r)
    (hbefore : ∀ (j : Nat) (hj : j < bs.length), j < i → bs[j].check t = none) :
    matchLoop t bs = some (bs[i].apply r) := by
  induction bs generalizing i with
  | nil => exact absurd h (Nat.not_lt_zero i)
  | cons b rest ih =>
    cases i with
    | zero =>
      simp only [List.getElem_cons_zero] at hhit ⊢
      simp [matchLoop, hhit]
    | succ n =>
      have hb : b.check t = none := hbefore 0 (Nat.succ_pos _) (Nat.succ_pos n)
      simp only [List.getElem_cons_succ] at hhit ⊢
      simp only [matchLoop, hb]
      exact ih n (Nat.lt_of_succ_lt_succ h) hhit
        (fun j hj hlt => hbefore (j + 1) (Nat.succ_lt_succ hj) (Nat.succ_lt_succ hlt))

/-- The branch loop returns `none` when every check misses. -/
lemma matchLoop_all_none {α : Type} (t : α) (bs : List (Branch α))
    (h : ∀ b ∈ bs, b.check t = none) : matchLoop t bs = none := by
  induction bs with
  | nil => rfl
  | cons b rest ih =>
    simp only [matchLoop, h b (List.mem_cons_self b rest)]
    exact ih (fun b' hb' => h b' (List.mem_cons_of_mem b hb'))

/-- C4: when every branch is registered, `match` returns `apply` of the first
branch whose `check` result is not `None` (branches are tried in the given
order), returns `None` when every check misses, and returns `None` when no
branches are given. -/
theorem C4_match {α : Type} (iface : Iface) (t : α) (bs : List (Branch α))
    (hreg : ∀ b ∈ bs, isimplementation b.cls iface = true) :
    (∀ (i : Nat) (h : i < bs.length) (r : List α),
        bs[i].check t = some r →
        (∀ (j : Nat) (hj : j < bs.length), j < i → bs[j].check t = none) →
        matchEval iface t bs = .ok (some (bs[i].apply r))) ∧
    ((∀ b ∈ bs, b.check t = none) → matchEval iface t bs = .ok none) ∧
    (bs = [] → matchEval iface t bs = .ok none) := by
  have hall : bs.all (fun b => isimplementation b.cls iface) = true :=
    List.all_eq_true.mpr hreg
  refine ⟨?_, ?_, ?_⟩
  · intro i h r hhit hbefore
    unfold matchEval
    rw [hall]
    simp only [if_true]
    rw [matchLoop_of_first t bs i h r hhit hbefore]
  · intro hnone
    unfold matchEval
    rw [hall]
    simp only [if_true]
    rw [matchLoop_all_none t bs hnone]
  · intro he
    subst he
    rfl

/-- C8: `match` raises `TypeError` exactly when some branch's class is not
registered as an implementation of the interface, independently of every
branch's `check` behaviour; with all branches registered this error is never
raised. -/
theorem C8_registration {α : Type} (iface : Iface) (t : α) (bs : List (Branch α)) :
    ((∃ b ∈ bs, isimplementation b.cls iface = false) →
       matchEval iface t bs = .error .typeError) ∧
    ((∀ b ∈ bs, isimplementation b.cls iface = true) →
       matchEval iface t bs ≠ .error .typeError) := by
  constructor
  · rintro ⟨b, hb, hfalse⟩
    have hall : bs.all (fun b => isimplementation b.cls iface) = false := by
      cases hc : bs.all (fun b => isimplementation b.cls iface) with
      | false => rfl
      | true => exact absurd (List.all_eq_true.mp hc b hb) (by simp [hfalse])
    unfold matchEval
    rw [hall]
    rfl
  · intro hreg
    have hall : bs.all (fun b => isimplementation b.cls iface) = true :=
      List.all_eq_true.mpr hreg
    unfold matchEval
    rw [hall]
    simp

/-- The `check(self, target: Any) -> Optional[Tuple]` member declared by the
`_IMatchBranch` interface (annotation atoms: `10` = `Any`,
`11` = `Optional[Tuple]`; type tag `0` = function). -/
def checkMember : Member :=
  ⟨0, true, ⟨[⟨ParamKind.positionalOrKeyword, none⟩,
              ⟨ParamKind.positionalOrKeyword, some 10⟩], some 11⟩, []⟩

/-- The `_IMatchBranch` interface from `matching.py`. -/
def IMatchBranch : Iface := ⟨0, [("check", checkMember)]⟩

/-- A registered branch: check always hits with no captures, apply returns 7. -/
def wBranch : Branch Nat :=
  ⟨⟨[("check", checkMember)], some [IMatchBranch.id]⟩, fun _ => some [], fun _ => 7⟩

/-- A branch whose class structurally conforms to `_IMatchBranch` but was
never registered (`__interfaces__` is absent). -/
def wRogue : Branch Nat :=
  ⟨⟨[("check", checkMember)], none⟩, fun _ => some [], fun _ => 7⟩

/-- Witness for C4: a single registered always-matching branch. -/
theorem C4_match_w : matchEval IMatchBranch 3 [wBranch] = .ok (some 7) :=
  (C4_match IMatchBranch 3 [wBranch]
      (by intro b hb; rw [List.mem_singleton] at hb; subst hb; rfl)).1
    0 (Nat.zero_lt_one) [] rfl
    (fun j hj hlt => absurd hlt (Nat.not_lt_zero j))

/-- Witness for C8: the rogue branch conforms structurally (the fuzzy check
would accept it) yet `match` raises `TypeError`. -/
theorem C8_registration_w :
    perform_check wRogue.cls.body IMatchBranch.body false = true ∧
    matchEval IMatchBranch 3 [wRogue] = .error .typeError :=
  ⟨by decide,
   (C8_registration IMatchBranch 3 [wRogue]).1
     ⟨wRogue, List.mem_singleton.mpr rfl, rfl⟩⟩

/-- Lookup in an attribute dict (Python dicts have unique keys; the model
reads the first binding). -/
def lookupA {β : Type} : List (String × β) → String → Option β
  | [], _ => none
  | kv :: rest, a => if kv.1 == a then some kv.2 else lookupA rest a

/-- Update in an attribute dict: replace the binding in place, or append. -/
def setA {β : Type} : List (String × β) → String → β → List (String × β)
  | [], a, v => [(a, v)]
  | kv :: rest, a, v => if kv.1 == a then (a, v) :: rest else kv :: setA rest a v

/-- Removal of a key from an attribute dict. -/
def removeA {β : Type} (l : List (String × β)) (a : String) : List (String × β) :=
  l.filter (fun kv => !(kv.1 == a))

/-- A composee instance in the composition model: its truthiness
(`bool(obj)`, tested by `if not obj`), its class (`type(obj)`, consulted by
the interface check), and its attribute dict (attribute values are `Nat`
atoms). -/
structure CObj where
  truthy : Bool
  cls : PyClass
  attrs : List (String × Nat)
deriving DecidableEq

/-- `getattr(obj, a)` (`none` models the `AttributeError`). -/
def getattrC (o : CObj) (a : String) : Option Nat :=
  lookupA o.attrs a

/-- `hasattr(obj, a)`. -/
def hasattrC (o : CObj) (a : String) : Bool :=
  (lookupA o.attrs a).isSome

/-- `setattr(obj, a, v)`. -/
def setattrC (o : CObj) (a : String) (v : Nat) : CObj :=
  { o with attrs := setA o.attrs a v }

/-- `delattr(obj, a)` (`none` models the `AttributeError` when absent). -/
def delattrC (o : CObj) (a : String) : Option CObj :=
  if (lookupA o.attrs a).isSome then some { o with attrs := removeA o.attrs a }
  else none

/-- Updating a key then reading it back yields the new value. -/
lemma lookupA_setA_self {β : Type} (l : List (String × β)) (a : String) (v : β) :
    lookupA (setA l a v) a = some v := by
  induction l with
  | nil => simp [setA, lookupA]
  | cons kv rest ih =>
    rcases eq_or_ne kv.1 a with he | he
    · simp [setA, lookupA, he]
    · simp [setA, lookupA, he, ih]

/-- Updating a key does not change reads of another key. -/
lemma lookupA_setA_ne {β : Type} (l : List (String × β)) (a b : String) (v : β)
    (hne : b ≠ a) :
    lookupA (setA l a v) b = lookupA l b := by
  have hab : a ≠ b := fun h => hne h.symm
  induction l with
  | nil => simp [setA, lookupA, hab]
  | cons kv rest ih =>
    rcases eq_or_ne kv.1 a with he | he
    · simp [setA, lookupA, he, hab]
    · rcases eq_or_ne kv.1 b with hb | hb
      · simp [setA, lookupA, he, hb, hne]
      · simp [setA, lookupA, he, hb, ih]

/-- Removing a key makes reads of it fail. -/
lemma lookupA_removeA_self {β : Type} (l : List (String × β)) (a : String) :
    lookupA (removeA l a) a = none := by
  induction l with
  | nil => rfl
  | cons kv rest ih =>
    rcases eq_or_ne kv.1 a with he | he
    · simpa [removeA, List.filter_cons, he] using ih
    · simpa [removeA, List.filter_cons, lookupA, he] using ih

/-- Removing a key does not change reads of another key. -/
lemma lookupA_removeA_ne {β : Type} (l : List (String × β)) (a b : String)
    (hne : b ≠ a) :
    lookupA (removeA l a) b = lookupA l b := by
  have hab : a ≠ b := fun h => hne h.symm
  induction l with
  | nil => rfl
  | cons kv rest ih =>
    rcases eq_or_ne kv.1 a with he | he
    · simpa [removeA, List.filter_cons, lookupA, he, hab] using ih
    · rcases eq_or_ne kv.1 b with hb | hb
      · simp [removeA, List.filter_cons, lookupA, he, hb, hne]
      · simpa [removeA, List.filter_cons, lookupA, he, hb] using ih

/-- A field declaration passed to `Compose`: a bare string or an
`(origin, dest)` pair. -/
inductive CField where
  | bare (s : String)
  | pair (origin dest : String)
deriving DecidableEq

/-- The normalisation
`[(field, field) if not isinstance(field, tuple) else field for field in fields]`
at the top of `Compose`: a bare string forwards under its own name. -/
def normalizeFields : List CField → List (String × String)
  | [] => []
  | CField.bare s :: rest => (s, s) :: normalizeFields rest
  | CField.pair o d :: rest => (o, d) :: normalizeFields rest


/-- The attribute dict of a composite instance; for the forwarding properties
only the slot that a successful `__init__` filled with the composee matters
(`setattr(self, name_, obj)`). -/
structure OuterObj where
  slots : List (String × CObj)
deriving DecidableEq

/-- `attrgetter(name)(self)` (`none` models the `AttributeError`). -/
def slotFind (s : OuterObj) (nm : String) : Option CObj :=
  lookupA s.slots nm

/-- The composite after an in-place mutation of the composee held in slot `nm`. -/
def slotUpdate (s : OuterObj) (nm : String) (o : CObj) : OuterObj :=
  ⟨setA s.slots nm o⟩

/-- The `getter` closure of `_build_field`:
`getattr(obj_getter(self), field)`. -/
def fieldGet (nm origin : String) (s : OuterObj) : Option Nat :=
  match slotFind s nm with
  | none => none
  | some inner => getattrC inner origin

/-- The `setter` closure of `_build_field`:
`setattr(obj_getter(self), field, value)`; the result is the composite whose
composee now carries the updated attribute. -/
def fieldSet (nm origin : String) (s : OuterObj) (v : Nat) : Option OuterObj :=
  match slotFind s nm with
  | none => none
  | some inner => some (slotUpdate s nm (setattrC inner origin v))

/-- The `deleter` closure of `_build_field`:
`delattr(obj_getter(self), field)`. -/
def fieldDel (nm origin : String) (s : OuterObj) : Option OuterObj :=
  match slotFind s nm with
  | none => none
  | some inner =>
    match delattrC inner origin with
    | none => none
    | some inner2 => some (slotUpdate s nm inner2)

/-- A property object: the accessor triple made by `property(getter, setter, deleter)`. -/
structure PyProp where
  get : OuterObj → Option Nat
  set : OuterObj → Nat → Option OuterObj
  del : OuterObj → Option OuterObj

/-- `_build_field(name, field)` from `composition.py`. -/
def build_field (nm origin : String) : PyProp :=
  ⟨fieldGet nm origin, fieldSet nm origin, fieldDel nm origin⟩

/-- The properties installed by `InheritableComposition.__init_subclass__`:
`setattr(cls, dest, _build_field(name_, origin))` for every normalised pair. -/
def init_subclass_props (nm : String) (fields : List CField) : List (String × PyProp) :=
  (normalizeFields fields).map (fun od => (od.2, build_field nm od.1))

/-- C5: for every forwarded pair `(origin, dest)` (a bare string forwards
under its own name, by `normalizeFields`), the property installed under
`dest` is `_build_field(name_, origin)`; on a composite whose composee slot
is filled, its getter reads the composee's `origin` attribute, its setter
rewrites exactly that attribute, and its deleter removes exactly that
attribute. -/
theorem C5_forwarding (nm : String) (fields : List CField) (origin dest : String)
    (hmem : (origin, dest) ∈ normalizeFields fields)
    (s : OuterObj) (inner : CObj) (v w : Nat)
    (hslot : slotFind s nm = some inner)
    (hval : getattrC inner origin = some v) :
    ((dest, build_field nm origin) ∈ init_subclass_props nm fields) ∧
    ((build_field nm origin).get s = some v) ∧
    (∃ s2, (build_field nm origin).set s w = some s2 ∧
       fieldGet nm origin s2 = some w ∧
       (∀ b, b ≠ origin → fieldGet nm b s2 = fieldGet nm b s)) ∧
    (∃ s3, (build_field nm origin).del s = some s3 ∧
       fieldGet nm origin s3 = none ∧
       (∀ b, b ≠ origin → fieldGet nm b s3 = fieldGet nm b s)) := by
  have hval0 : lookupA inner.attrs origin = some v := hval
  refine ⟨?_, ?_, ?_, ?_⟩
  · exact List.mem_map.mpr ⟨(origin, dest), hmem, rfl⟩
  · show fieldGet nm origin s = some v
    unfold fieldGet
    rw [hslot]
    exact hval
  · refine ⟨slotUpdate s nm (setattrC inner origin w), ?_, ?_, ?_⟩
    · show fieldSet nm origin s w = _
      unfold fieldSet
      rw [hslot]
    · unfold fieldGet slotUpdate slotFind
      rw [show lookupA (setA s.slots nm (setattrC inner origin w)) nm
            = some (setattrC inner origin w) from lookupA_setA_self _ _ _]
      show lookupA (setA inner.attrs origin w) origin = some w
      exact lookupA_setA_self _ _ _
    · intro b hb
      unfold fieldGet slotUpdate slotFind
      rw [show lookupA (setA s.slots nm (setattrC inner origin w)) nm
            = some (setattrC inner origin w) from lookupA_setA_self _ _ _]
      rw [show lookupA s.slots nm = some inner from hslot]
      show lookupA (setA inner.attrs origin w) b = lookupA inner.attrs b
      exact lookupA_setA_ne _ _ _ _ hb
  · have hsome : (lookupA inner.attrs origin).isSome = true := by
      rw [hval0]; rfl
    refine ⟨slotUpdate s nm { inner with attrs := removeA inner.attrs origin },
      ?_, ?_, ?_⟩
    · show fieldDel nm origin s = _
      simp [fieldDel, hslot, delattrC, hsome]
    · unfold fieldGet slotUpdate slotFind
      rw [show lookupA (setA s.slots nm { inner with attrs := removeA inner.attrs origin }) nm
            = some { inner with attrs := removeA inner.attrs origin }
          from lookupA_setA_self _ _ _]
      show lookupA (removeA inner.attrs origin) origin = none
      exact lookupA_removeA_self _ _
    · intro b hb
      unfold fieldGet slotUpdate slotFind
      rw [show lookupA (setA s.slots nm { inner with attrs := removeA inner.attrs origin }) nm
            = some { inner with attrs := removeA inner.attrs origin }
          from lookupA_setA_self _ _ _]
      rw [show lookupA s.slots nm = some inner from hslot]
      show lookupA (removeA inner.attrs origin) b = lookupA inner.attrs b
      exact lookupA_removeA_ne _ _ _ hb

/-- Composee instance used by composition witnesses. -/
def wInner : CObj := ⟨true, wCls, [("x", 5), ("y", 6)]⟩

/-- Composite instance used by composition witnesses: its `_data` slot holds
`wInner`. -/
def wOuter : OuterObj := ⟨[("_data", wInner)]⟩

/-- Witness for C5: reading the forwarded bare field `x` through the
generated property yields the composee's value. -/
theorem C5_forwarding_w : (build_field "_data" "x").get wOuter = some 5 :=
  (C5_forwarding "_data" [CField.bare "x"] "x" "x" (by decide) wOuter wInner 5 9
    (by decide) (by decide)).2.1

/-- The static data of one `Compose(type_, *fields, name=..., build=..., args=..., kwargs=...)`
call, as captured by the closure of `InheritableComposition`:
* `typeIsIface` is `isinstance(type_, InterfaceMeta)`, and `iface` is `type_`
  itself when it is an interface;
* `build` is the `build` flag;
* `built` models the object `type_(*args, **kwargs)` that building produces
  (meaningful when `type_` is a plain type);
* `nm` is `name_` and `fields` the declared forwarding fields. -/
structure ComposeCfg where
  typeIsIface : Bool
  iface : Iface
  build : Bool
  built : CObj
  nm : String
  fields : List CField

/-- The `if any(not hasattr(obj, attr) for attr, _ in fields_)` guard of
`InheritableComposition.__init__`, followed by the final
`setattr(self, name_, obj)`: the `.ok` result is the binding a successful
`__init__` stores on the new instance. -/
def fieldsCheck (cfg : ComposeCfg) (o : CObj) : Except PyErr (String × CObj) :=
  if (normalizeFields cfg.fields).any (fun od => !(hasattrC o od.1)) then
    .error .typeError
  else .ok (cfg.nm, o)

/-- The `if not obj:` branch of `__init__`: build a fresh composee when
`build and not isinstance(type_, InterfaceMeta)`, otherwise raise
`ValueError`. -/
def composeInitAbsent (cfg : ComposeCfg) : Except PyErr (String × CObj) :=
  if cfg.build && !cfg.typeIsIface then fieldsCheck cfg cfg.built
  else .error .valueError

/-- `InheritableComposition.__init__`, given the value passed under the
composee keyword (`none` when the keyword is absent —
`obj = kwargs_.pop(name_, None)`).  A falsy supplied object takes the
`if not obj:` branch exactly like an absent one; a truthy one is checked
against the interface (when `type_` is one) and then against the forwarded
fields. -/
def composeInit (cfg : ComposeCfg) (supplied : Option CObj) : Except PyErr (String × CObj) :=
  match supplied with
  | none => composeInitAbsent cfg
  | some o =>
    if !o.truthy then composeInitAbsent cfg
    else if cfg.typeIsIface && !(isimplementation o.cls cfg.iface) then
      .error .typeError
    else fieldsCheck cfg o

/-- C6: the error behaviour of a `Compose`-generated `__init__`.
With no composee supplied: `ValueError` when building is disabled or `type_`
is an interface; otherwise the freshly built `type_(*args, **kwargs)` is
stored under the composee name (when it carries all forwarded origin fields,
and `TypeError` when it does not).  With a (truthy) composee supplied:
`TypeError` when `type_` is an interface the composee's class does not
implement, and `TypeError` whenever the composee lacks a forwarded origin
field. -/
theorem C6_init (cfg : ComposeCfg) :
    ((cfg.build = false ∨ cfg.typeIsIface = true) →
       composeInit cfg none = .error .valueError) ∧
    (cfg.build = true → cfg.typeIsIface = false →
       (∀ od ∈ normalizeFields cfg.fields, hasattrC cfg.built od.1 = true) →
       composeInit cfg none = .ok (cfg.nm, cfg.built)) ∧
    (∀ o : CObj, o.truthy = true → cfg.typeIsIface = true →
       isimplementation o.cls cfg.iface = false →
       composeInit cfg (some o) = .error .typeError) ∧
    (∀ o : CObj, o.truthy = true →
       (∃ od ∈ normalizeFields cfg.fields, hasattrC o od.1 = false) →
       composeInit cfg (some o) = .error .typeError) ∧
    (cfg.build = true → cfg.typeIsIface = false →
       (∃ od ∈ normalizeFields cfg.fields, hasattrC cfg.built od.1 = false) →
       composeInit cfg none = .error .typeError) := by
  refine ⟨?_, ?_, ?_, ?_, ?_⟩
  · rintro (h | h) <;> simp [composeInit, composeInitAbsent, h]
  · intro h1 h2 h3
    have hany : (normalizeFields cfg.fields).any (fun od => !(hasattrC cfg.built od.1))
        = false := by
      cases hc : (normalizeFields cfg.fields).any (fun od => !(hasattrC cfg.built od.1)) with
      | false => rfl
      | true =>
        obtain ⟨od, hod, hmiss⟩ := List.any_eq_true.mp hc
        rw [h3 od hod] at hmiss
        exact absurd hmiss (by simp)
    simp [composeInit, composeInitAbsent, fieldsCheck, h1, h2, hany]
  · intro o h1 h2 h3
    simp [composeInit, h1, h2, h3]
  · intro o h1 hex
    obtain ⟨od, hod, hmiss⟩ := hex
    have hany : (normalizeFields cfg.fields).any (fun od => !(hasattrC o od.1)) = true :=
      List.any_eq_true.mpr ⟨od, hod, by rw [hmiss]; rfl⟩
    cases hcond : (cfg.typeIsIface && !(isimplementation o.cls cfg.iface)) with
    | true => simp [composeInit, h1, hcond]
    | false => simp [composeInit, fieldsCheck, h1, hcond, hany]
  · intro h1 h2 hex
    obtain ⟨od, hod, hmiss⟩ := hex
    have hany : (normalizeFields cfg.fields).any (fun od => !(hasattrC cfg.built od.1))
        = true :=
      List.any_eq_true.mpr ⟨od, hod, by rw [hmiss]; rfl⟩
    simp [composeInit, composeInitAbsent, fieldsCheck, h1, h2, hany]

/-- C10: a falsy supplied composee is treated exactly like an absent one. -/
theorem C10_falsy (cfg : ComposeCfg) (o : CObj) (h : o.truthy = false) :
    composeInit cfg (some o) = composeInit cfg none := by
  simp [composeInit, h]

/-- Configuration used by witnesses: plain type with building enabled, one
bare forwarded field `x`, and `wInner` as the object building produces. -/
def wCfg : ComposeCfg := ⟨false, wIface, true, wInner, "_data", [CField.bare "x"]⟩

/-- Interface-typed configuration used by witnesses: building does nothing
for interfaces, so omitting the composee raises. -/
def wCfgIface : ComposeCfg := ⟨true, wIface, true, wInner, "_data", [CField.bare "x"]⟩

/-- A falsy composee instance. -/
def wFalsy : CObj := ⟨false, wCls, []⟩

/-- Witness for C6: the interface-typed configuration raises `ValueError`
without a composee, and the plain configuration builds and stores `wInner`. -/
theorem C6_init_w :
    composeInit wCfgIface none = .error .valueError ∧
    composeInit wCfg none = .ok (wCfg.nm, wCfg.built) :=
  ⟨(C6_init wCfgIface).1 (Or.inr rfl),
   (C6_init wCfg).2.1 rfl rfl (by decide)⟩

/-- Witness for C10: supplying the falsy composee behaves like omitting it. -/
theorem C10_falsy_w : composeInit wCfg (some wFalsy) = composeInit wCfg none :=
  C10_falsy wCfg wFalsy rfl

/-- A target object for `Struct` matching: its runtime type tag
(`type(target)`) and its attribute dict. -/
structure SObj where
  ty : TypeTag
  attrs : List (String × Nat)
deriving DecidableEq

/-- `getattr(target, a)` for struct targets (`none` models `AttributeError`). -/
def getattrS (o : SObj) (a : String) : Option Nat :=
  lookupA o.attrs a

/-- A keyword constraint handed to `Struct(...)`: a non-callable value
compared with `==`, or a callable applied to the attribute (the truthiness of
its result decides). -/
inductive KwTest where
  | lit (v : Nat)
  | pred (f : Nat → Bool)

/-- One keyword conjunct of the `all(...)` generator in `Struct.check`:
`getattr(target, attr) == val if not callable(val) else val(getattr(target, attr))`. -/
def kwSat (tst : KwTest) (v : Nat) : Bool :=
  match tst with
  | .lit w => v == w
  | .pred f => f v

/-- The `all(...)` generator of `Struct.check`, evaluated left to right with
short-circuiting; `none` models an `AttributeError` escaping the generator. -/
def kwAllEval (o : SObj) : List (String × KwTest) → Option Bool
  | [] => some true
  | (a, tst) :: rest =>
    match getattrS o a with
    | none => none
    | some v => if kwSat tst v then kwAllEval o rest else some false

/-- The `tuple(getattr(target, attr) for attr in args)` of `Struct.check`,
evaluated left to right; `none` models an `AttributeError`. -/
def argsTuple (o : SObj) : List String → Option (List Nat)
  | [] => some []
  | a :: rest =>
    match getattrS o a with
    | none => none
    | some v => (argsTuple o rest).map (fun vs => v :: vs)

/-- `Struct.check(self, target)` for the branch class `Struct[type_]` holding
`check_val = (args, kwargs)`: inside `isinstance(target, self._type)`, the
keyword conjunction runs first, then the args tuple is built; a caught
`AttributeError` and every other failure yield `None`. -/
def structCheck (tyTag : TypeTag) (args : List String)
    (kwargs : List (String × KwTest)) (target : SObj) : Option (List Nat) :=
  if target.ty == tyTag then
    match kwAllEval target kwargs with
    | none => none
    | some false => none
    | some true =>
      match argsTuple target args with
      | none => none
      | some vs => some vs
  else none

/-- The property claim C7 states for one keyword pair: the attribute exists
and satisfies the constraint. -/
def kwMatches (o : SObj) (kv : String × KwTest) : Prop :=
  ∃ v, getattrS o kv.1 = some v ∧ kwSat kv.2 v = true

/-- The keyword conjunction succeeds exactly when every pair matches. -/
lemma kwAllEval_eq_true_iff (o : SObj) (kwargs : List (String × KwTest)) :
    kwAllEval o kwargs = some true ↔ ∀ kv ∈ kwargs, kwMatches o kv := by
  induction kwargs with
  | nil => simp [kwAllEval]
  | cons kv rest ih =>
    obtain ⟨a, tst⟩ := kv
    cases hg : getattrS o a with
    | none =>
      simp only [kwAllEval, hg]
      constructor
      · intro h
        exact absurd h (by simp)
      · intro h
        obtain ⟨v, hv, _⟩ := h (a, tst) (List.mem_cons_self _ _)
        rw [hg] at hv
        exact absurd hv (by simp)
    | some v =>
      cases hs : kwSat tst v with
      | true =>
        simp only [kwAllEval, hg, hs, if_true]
        rw [ih]
        constructor
        · intro h kv2 hmem
          rcases List.mem_cons.mp hmem with he | hm
          · subst he
            exact ⟨v, hg, hs⟩
          · exact h kv2 hm
        · intro h kv2 hmem
          exact h kv2 (List.mem_cons_of_mem _ hmem)
      | false =>
        simp only [kwAllEval, hg, hs]
        constructor
        · intro h
          exact absurd h (by simp)
        · intro h
          obtain ⟨v2, hv2, hsat⟩ := h (a, tst) (List.mem_cons_self _ _)
          rw [hg] at hv2
          cases hv2
          rw [hs] at hsat
          exact absurd hsat (by simp)

/-- The args tuple succeeds exactly when every listed attribute is present,
and then lists the attribute values in order. -/
lemma argsTuple_eq_some_iff (o : SObj) (args : List String) (vs : List Nat) :
    argsTuple o args = some vs ↔ args.map (getattrS o) = vs.map some := by
  induction args generalizing vs with
  | nil => cases vs <;> simp [argsTuple]
  | cons a rest ih =>
    cases hg : getattrS o a with
    | none =>
      simp only [argsTuple, hg, List.map_cons]
      cases vs <;> simp
    | some v =>
      simp only [argsTuple, hg, List.map_cons, Option.map_eq_some']
      cases vs with
      | nil => simp
      | cons w ws =>
        simp only [List.map_cons, List.cons.injEq, Option.some.injEq]
        constructor
        · rintro ⟨x, hx, hv, rfl⟩
          exact ⟨hv, (ih x).mp hx⟩
        · rintro ⟨hv, hrest⟩
          exact ⟨ws, (ih ws).mpr hrest, hv, rfl⟩

/-- C7: `Struct[T](a1, ..., ak, kw1=v1, ...).check(target)` returns the tuple
of the `args` attribute values exactly when the target is an instance of `T`,
every keyword pair matches (equality for non-callables, truthiness of the
application for callables), and every `args` attribute exists; in every other
case — wrong type, a failed keyword, or a missing attribute raising the
caught `AttributeError` — it returns `None`. -/
theorem C7_struct (tyTag : TypeTag) (args : List String)
    (kwargs : List (String × KwTest)) (o : SObj) (vs : List Nat) :
    structCheck tyTag args kwargs o = some vs ↔
      (o.ty = tyTag ∧ (∀ kv ∈ kwargs, kwMatches o kv) ∧
       args.map (getattrS o) = vs.map some) := by
  unfold structCheck
  cases hty : (o.ty == tyTag) with
  | false =>
    constructor
    · intro h
      exact absurd h (by simp)
    · rintro ⟨h, _, _⟩
      rw [beq_iff_eq.mpr h] at hty
      exact absurd hty (by simp)
  | true =>
    have hty2 : o.ty = tyTag := beq_iff_eq.mp hty
    rw [if_pos rfl]
    constructor
    · intro h
      cases hkw : kwAllEval o kwargs with
      | none =>
        rw [hkw] at h
        exact absurd h (by simp)
      | some b =>
        cases b with
        | false =>
          rw [hkw] at h
          exact absurd h (by simp)
        | true =>
          rw [hkw] at h
          cases hat : argsTuple o args with
          | none =>
            rw [hat] at h
            exact absurd h (by simp)
          | some vs2 =>
            rw [hat] at h
            have hv : vs2 = vs := by simpa using h
            subst hv
            exact ⟨hty2, (kwAllEval_eq_true_iff o kwargs).mp hkw,
              (argsTuple_eq_some_iff o args vs2).mp hat⟩
    · rintro ⟨_, hkw, hargs⟩
      rw [(kwAllEval_eq_true_iff o kwargs).mpr hkw,
        (argsTuple_eq_some_iff o args vs).mpr hargs]

/-- Struct-matching target used by the C7 witness: type tag 4, attributes
`x = 5`, `y = 6`. -/
def wTarget : SObj := ⟨4, [("x", 5), ("y", 6)]⟩

/-- Witness for C7: `Struct[T]("y", x=5).check` on `wTarget` captures `y`. -/
theorem C7_struct_w :
    structCheck 4 ["y"] [("x", KwTest.lit 5)] wTarget = some [6] :=
  (C7_struct 4 ["y"] [("x", KwTest.lit 5)] wTarget [6]).mpr
    ⟨rfl,
     by
       intro kv hmem
       rw [List.mem_singleton] at hmem
       subst hmem
       exact ⟨5, rfl, rfl⟩,
     rfl⟩

/-- Witness for C2: two identical one-parameter signatures are accepted. -/
theorem C2_callable_accept_w : sigOk false wMember.sig wMember.sig = true :=
  (C2_callable_accept wMember.sig wMember.sig).mpr
    ⟨rfl,
     List.Forall₂.cons ⟨rfl, fun _ ha => ha⟩
       (List.Forall₂.cons ⟨rfl, fun _ ha => ha⟩ List.Forall₂.nil),
     fun _ ha => ha⟩

end SwPatterns
